import Mathlib

/-!
Shallow embedding of `src/agents/agent_service.py` (the agent message loop of
context-labs-ai/gradientflow): sanitization pipeline, mention detection,
context building, reply generation, message processing and the poll cycle.
Python strings are modelled as `List Char`; the network and the LLM backend
are modelled as explicit oracles.  The scanners below translate the source's
regular-expression operations; each is written with an explicit step budget
(the length of the input) so that it is structurally recursive: every step
consumes at least one character, so the budget never runs out on the initial
call and the wrapper computes the exact scan.
-/

namespace GradientFlow

/-- Characters of a Python string. -/
abbrev Str := List Char

/-- Python whitespace for `\s` and `str.strip` (ASCII range; the source
operates on Unicode but every whitespace character relevant here is ASCII). -/
def isPySpace (c : Char) : Bool :=
  c = ' ' || c = '\t' || c = '\n' || c = '\r' || c = '\x0b' || c = '\x0c'

/-- Python `str.strip()`: drop leading and trailing whitespace. -/
def pyStrip (cs : Str) : Str :=
  ((cs.dropWhile isPySpace).reverse.dropWhile isPySpace).reverse

/-- Leftmost occurrence of `pat` as a contiguous substring of the second
argument: returns the part strictly before the occurrence and the part
strictly after it, or `none` when `pat` does not occur. -/
def splitAtSub (pat : Str) : Str → Option (Str × Str)
  | [] => if pat.isPrefixOf ([] : Str) then some ([], []) else none
  | c :: rest =>
    if pat.isPrefixOf (c :: rest) then some ([], (c :: rest).drop pat.length)
    else (splitAtSub pat rest).map (fun p => (c :: p.1, p.2))

/-- Python `pat in s` (substring containment). -/
def containsSub (pat : Str) (cs : Str) : Bool :=
  (splitAtSub pat cs).isSome

/-- The literal marker opening the final channel in the model-output framing
format handled by `strip_special_tags`. -/
def finalMarker : Str := "<|channel|>final<|message|>".toList

/-- The literal end marker of the framing format. -/
def endMarker : Str := "<|end|>".toList

/-- The regex search for the final-channel segment: the capture of the
non-greedy group between the final-channel marker (leftmost occurrence) and
the next end marker, or up to the end of the text when no end marker follows
(the end-of-text anchor also matches just before a single trailing
newline). -/
def extractFinal (cs : Str) : Str :=
  match splitAtSub finalMarker cs with
  | none => cs
  | some pr =>
    match splitAtSub endMarker pr.2 with
    | some body => body.1
    | none => if pr.2.getLast? = some '\n' then pr.2.dropLast else pr.2

def thinkOpen : Str := "<think>".toList

def thinkClose : Str := "</think>".toList

/-- Global non-greedy removal of think blocks: each leftmost occurrence of
the open tag that is followed by a close tag is deleted together with the
content up to and including the first close tag after it. -/
def stripThinkAux : Nat → Str → Str
  | _, [] => []
  | 0, cs => cs
  | fuel + 1, c :: rest =>
    if thinkOpen.isPrefixOf (c :: rest) then
      match splitAtSub thinkClose ((c :: rest).drop thinkOpen.length) with
      | some p => stripThinkAux fuel p.2
      | none => c :: stripThinkAux fuel rest
    else c :: stripThinkAux fuel rest

def stripThink (cs : Str) : Str := stripThinkAux cs.length cs

/-- After an opening angle-pipe pair, scan for the closing pipe-angle pair of
the remaining-framing-token regex: the match ends at the first closing angle
bracket, which must be immediately preceded by a pipe with at least one
character between the opening pair and that pipe.  `n` counts the characters
consumed so far; returns the remainder of the text after the match, or `none`
when the regex cannot match at this opening pair. -/
def scanTagEnd : Str → Nat → Option Str
  | '|' :: '>' :: rest, n => if n = 0 then none else some rest
  | '>' :: _, _ => none
  | _ :: rest, n => scanTagEnd rest (n + 1)
  | [], _ => none

/-- Global removal of every remaining framing token matched by the
angle-pipe token regex. -/
def stripTagsAux : Nat → Str → Str
  | _, [] => []
  | 0, cs => cs
  | fuel + 1, c :: rest =>
    match c :: rest with
    | '<' :: '|' :: rest2 =>
      match scanTagEnd rest2 0 with
      | some rest3 => stripTagsAux fuel rest3
      | none => '<' :: stripTagsAux fuel ('|' :: rest2)
    | _ => c :: stripTagsAux fuel rest

def stripTags (cs : Str) : Str := stripTagsAux cs.length cs

/-- Global replacement of every run of three or more newlines by exactly two:
equivalently, cap each maximal run of newlines at two.  The counter is the
number of consecutive newlines just emitted. -/
def capNewlines : Str → Nat → Str
  | [], _ => []
  | c :: rest, n =>
    if c = '\n' then
      if 2 ≤ n then capNewlines rest n else c :: capNewlines rest (n + 1)
    else c :: capNewlines rest 0

/-- `strip_special_tags` (src/agents/agent_service.py lines 13-32): extract
the final-channel segment when present, remove think blocks, remove remaining
framing tokens, collapse runs of three or more newlines to two, and strip.
The source's early return on the empty string coincides with running the
pipeline on the empty list. -/
def stripSpecialTags (text : Str) : Str :=
  pyStrip (capNewlines (stripTags (stripThink (extractFinal text))) 0)

/-- The character class of the mention-token regex (a word character, a
hyphen or a dot), restricted to ASCII: the source regex is Unicode-aware,
and every conversation text relevant to the claims is ASCII. -/
def isMentionChar (c : Char) : Bool :=
  c.isAlphanum || c = '_' || c = '-' || c = '.'

/-- src/agents/agent_service.py line 241: the global substitution deleting
each at-sign followed by a non-empty run of mention-class characters and any
following whitespace, everywhere in the content. -/
def stripAtMentionsAux : Nat → Str → Str
  | _, [] => []
  | 0, cs => cs
  | fuel + 1, c :: rest =>
    if c = '@' then
      if (rest.takeWhile isMentionChar).isEmpty then c :: stripAtMentionsAux fuel rest
      else stripAtMentionsAux fuel ((rest.dropWhile isMentionChar).dropWhile isPySpace)
    else c :: stripAtMentionsAux fuel rest

def stripAtMentions (cs : Str) : Str := stripAtMentionsAux cs.length cs

/-- `Message` (the dict shape fetched from the backend): identifier, sender
identifier, content, millisecond timestamp and the mentioned-user identifier
list.  Fields the source reads with a dict default are modelled as present. -/
structure Message where
  id : Str
  senderId : Str
  content : Str
  timestamp : Nat
  mentions : List Str
  deriving DecidableEq

/-- `User`: identifier and display name. -/
structure User where
  id : Str
  name : Str
  deriving DecidableEq

/-- The slice of the backend agent registration the service reads when
building a reply.  The model descriptor's temperature is a float passed
through to the LLM backend untouched; it is not modelled. -/
structure AgentConfig where
  systemPrompt : Option Str
  modelName : Option Str
  maxTokens : Option Nat
  deriving DecidableEq

/-- One role-tagged turn of the chat-completion payload. -/
structure Turn where
  role : Str
  content : Str
  deriving DecidableEq

/-- One `send_message` call: the posted content and the replied-to id. -/
structure SendCall where
  content : Str
  replyToId : Option Str
  deriving DecidableEq

/-- The mutable state of `AgentService` that the poll loop owns:
`last_seen_timestamp` (the watermark, line 58 initialises it to the process
start time in milliseconds), `processed_message_ids`, and the cached
`agent_config`. -/
structure SvcState where
  lastSeen : Nat
  processedMessageIds : List Str
  agentConfig : Option AgentConfig
  deriving DecidableEq

/-- The service identity plus the external collaborators, modelled as
oracles: the LLM client (`chat_with_history`, which either returns a raw
completion or raises) and the result of `fetch_agent_config` (`none` models
every failure path, which leaves the cached config unchanged). -/
structure Env where
  agentUserId : Str
  llm : List Turn → Except Str Str
  fetchedConfig : Option AgentConfig

/-- The two lists one `fetch_messages` call returns. -/
structure Fetch where
  messages : List Message
  users : List User

/-- `AgentService.is_mentioned` (lines 204-218): the structured mentions list
contains the agent's user id, or some user entry carries the agent's user id
with a non-empty name whose at-prefixed form occurs in the content. -/
def isMentioned (agentUserId : Str) (message : Message) (users : List User) : Bool :=
  message.mentions.contains agentUserId ||
    users.any (fun u =>
      decide (u.id = agentUserId) && decide (u.name ≠ []) &&
        containsSub ('@' :: u.name) message.content)

/-- The sender-name resolution of `build_context`: the dict comprehension
maps each user id to its name (a duplicated id keeps the last entry), and
lookups fall back to the name `User`. -/
def userName (users : List User) (uid : Str) : Str :=
  match (users.filter (fun u => decide (u.id = uid))).getLast? with
  | some u => u.name
  | none => "User".toList

/-- The per-message content cleaning of `build_context` (lines 239-241):
strip special tags, delete at-mentions, then strip. -/
def cleanContent (content : Str) : Str :=
  pyStrip (stripAtMentions (stripSpecialTags content))

/-- The single turn `build_context` emits for one message of the window
(lines 235-253): agent-sent messages become assistant turns with the cleaned
content as-is; other messages become user turns carrying the sender name,
and only the triggering message carries the asking-you marker. -/
def msgTurn (agentUserId : Str) (users : List User) (currentMsg : Message) (msg : Message) : Turn :=
  let senderName := userName users msg.senderId
  let content := cleanContent msg.content
  if msg.senderId = agentUserId then
    { role := ("assistant").toList, content := content }
  else if msg.id = currentMsg.id then
    { role := ("user").toList,
      content := ("<Name: ").toList ++ senderName ++ ("> [asking you]: ").toList ++ content }
  else
    { role := ("user").toList,
      content := ("<Name: ").toList ++ senderName ++ (">: ").toList ++ content }

/-- `AgentService.build_context` (lines 220-255): the last ten messages when
more than ten were fetched (all of them otherwise), each mapped to one
turn. -/
def buildContext (agentUserId : Str) (messages : List Message) (users : List User)
    (currentMsg : Message) : List Turn :=
  let recent := if messages.length > 10 then messages.drop (messages.length - 10) else messages
  recent.map (msgTurn agentUserId users currentMsg)

/-- The default persona prompt of `generate_reply` (lines 260-265). -/
def defaultSystemPrompt : Str :=
  ("You are a helpful AI assistant in a group chat. Respond directly and concisely to the user\x27s message. Do NOT include any prefix like \x27[GPT-4]:\x27 or your name in responses. Be friendly and helpful. You may respond in the user\x27s language.").toList

/-- The system turn of `generate_reply` (lines 266-272): the configured
system prompt when the cached config carries a truthy one, the default
otherwise (the Python or-expression also rejects an empty configured
prompt). -/
def systemTurn (cfg : Option AgentConfig) : Turn :=
  { role := ("system").toList,
    content :=
      match cfg with
      | some c =>
        match c.systemPrompt with
        | some p => if p.isEmpty then defaultSystemPrompt else p
        | none => defaultSystemPrompt
      | none => defaultSystemPrompt }

/-- The full turn sequence `generate_reply` hands to the LLM client
(line 273): the system turn prepended to the built context. -/
def llmMessages (cfg : Option AgentConfig) (context : List Turn) : List Turn :=
  systemTurn cfg :: context

/-- The literal fallback reply of `generate_reply` (line 308), the failure
description appended to the fixed apology prefix. -/
def fallbackReply (e : Str) : Str :=
  ("抱歉，我遇到了一些问题：").toList ++ e

/-- `AgentService.generate_reply` (lines 257-308): invoke the LLM client
with the system turn plus context; sanitize a successful raw completion,
and turn any raised failure into the literal fallback reply. -/
def generateReply (cfg : Option AgentConfig) (llm : List Turn → Except Str Str)
    (context : List Turn) : Str :=
  match llm (llmMessages cfg context) with
  | Except.ok response => stripSpecialTags response
  | Except.error e => fallbackReply e

/-- The config refresh inside `process_message` (line 330): a successful
`fetch_agent_config` replaces the cached config wholesale, any failure
leaves it unchanged. -/
def cfgAfterRefresh (env : Env) (st : SvcState) : Option AgentConfig :=
  match env.fetchedConfig with
  | some c => some c
  | none => st.agentConfig

/-- `AgentService.process_message` (lines 310-342): skip own messages, skip
already-processed identifiers, skip non-mentions; otherwise refresh the
config, build the context, generate the reply, post it as a reply to the
triggering message, and mark the identifier processed.  The posted call is
returned alongside the new state; posting happens and the id is marked
processed regardless of the publish outcome. -/
def processMessage (env : Env) (message : Message) (messages : List Message)
    (users : List User) (st : SvcState) : SvcState × Option SendCall :=
  if message.senderId = env.agentUserId then (st, none)
  else if st.processedMessageIds.contains message.id then (st, none)
  else if isMentioned env.agentUserId message users then
    let cfg := cfgAfterRefresh env st
    let context := buildContext env.agentUserId messages users message
    let reply := generateReply cfg env.llm context
    ({ st with agentConfig := cfg,
               processedMessageIds := message.id :: st.processedMessageIds },
      some { content := reply, replyToId := some message.id })
  else (st, none)

/-- The new-message filter of `AgentService.run` (lines 366-371): the fetched
messages whose timestamp exceeds the watermark and whose identifier is not
already processed, in fetch order. -/
def dispatched (st : SvcState) (messages : List Message) : List Message :=
  messages.filter (fun m =>
    decide (st.lastSeen < m.timestamp) && !(st.processedMessageIds.contains m.id))

/-- The dispatch loop of `run` (lines 373-374): process each new message in
list order, threading the state and collecting the posted calls. -/
def runDispatch (env : Env) (messages : List Message) (users : List User) :
    List Message → SvcState → SvcState × List SendCall
  | [], st => (st, [])
  | m :: rest, st =>
    let r1 := processMessage env m messages users st
    let r2 := runDispatch env messages users rest r1.1
    (r2.1, r1.2.toList ++ r2.2)

/-- Line 378: the maximum fetched timestamp (timestamps are naturals, so
folding from zero agrees with the Python max over a non-empty list). -/
def maxTs (messages : List Message) : Nat :=
  messages.foldl (fun acc m => max acc m.timestamp) 0

/-- One iteration of the `run` loop body (lines 362-381): fetch, filter,
dispatch sequentially, then — when the fetch returned any messages — advance
the watermark to the maximum of its old value and the maximum fetched
timestamp. -/
def pollCycle (env : Env) (f : Fetch) (st : SvcState) : SvcState × List SendCall :=
  let r := runDispatch env f.messages f.users (dispatched st f.messages) st
  if f.messages.isEmpty then r
  else ({ r.1 with lastSeen := max r.1.lastSeen (maxTs f.messages) }, r.2)

/-- The service state right after `__init__` (lines 58-61): the watermark is
the process start time in milliseconds, no processed ids, no cached
config. -/
def initState (startMs : Nat) : SvcState :=
  { lastSeen := startMs, processedMessageIds := [], agentConfig := none }

/-- A sequence of poll cycles (the `run` loop), returning the final state. -/
def runCycles (env : Env) : List Fetch → SvcState → SvcState
  | [], st => st
  | f :: fs, st => runCycles env fs (pollCycle env f st).1

section Helpers

theorem processMessage_lastSeen (env : Env) (m : Message) (msgs : List Message)
    (users : List User) (st : SvcState) :
    (processMessage env m msgs users st).1.lastSeen = st.lastSeen := by
  unfold processMessage
  split
  · rfl
  split
  · rfl
  split
  · rfl
  · rfl

theorem runDispatch_lastSeen (env : Env) (msgs : List Message) (users : List User) :
    ∀ (ms : List Message) (st : SvcState),
      (runDispatch env msgs users ms st).1.lastSeen = st.lastSeen := by
  intro ms
  induction ms with
  | nil => intro st; rfl
  | cons m rest ih =>
    intro st
    show (runDispatch env msgs users rest (processMessage env m msgs users st).1).1.lastSeen = _
    rw [ih, processMessage_lastSeen]

theorem pollCycle_lastSeen (env : Env) (f : Fetch) (st : SvcState) :
    (pollCycle env f st).1.lastSeen =
      if f.messages.isEmpty then st.lastSeen else max st.lastSeen (maxTs f.messages) := by
  unfold pollCycle
  split
  · simp [runDispatch_lastSeen]
  · simp [runDispatch_lastSeen]

theorem pollCycle_lastSeen_mono (env : Env) (f : Fetch) (st : SvcState) :
    st.lastSeen ≤ (pollCycle env f st).1.lastSeen := by
  rw [pollCycle_lastSeen]
  split
  · exact Nat.le_refl _
  · exact Nat.le_max_left _ _

theorem runCycles_lastSeen_mono (env : Env) :
    ∀ (fs : List Fetch) (st : SvcState), st.lastSeen ≤ (runCycles env fs st).lastSeen := by
  intro fs
  induction fs with
  | nil => intro st; exact Nat.le_refl _
  | cons f rest ih =>
    intro st
    exact Nat.le_trans (pollCycle_lastSeen_mono env f st) (ih (pollCycle env f st).1)

theorem runCycles_append (env : Env) :
    ∀ (l1 l2 : List Fetch) (st : SvcState),
      runCycles env (l1 ++ l2) st = runCycles env l2 (runCycles env l1 st) := by
  intro l1
  induction l1 with
  | nil => intro l2 st; rfl
  | cons f rest ih => intro l2 st; exact ih l2 (pollCycle env f st).1

end Helpers

/-- Claim C1: a message identifier already in the processed set makes
`process_message` a no-op — no publish call, and the watermark, the
processed set and the cached config are all left unchanged — and whenever
`process_message` does publish, the message identifier has been added to the
processed set, so a later invocation with the same identifier is such a
no-op even if the message reappears in a later fetch. -/
theorem processed_message_noop :
    (∀ (env : Env) (m : Message) (msgs : List Message) (users : List User) (st : SvcState),
      st.processedMessageIds.contains m.id = true →
        processMessage env m msgs users st = (st, none)) ∧
    (∀ (env : Env) (m : Message) (msgs : List Message) (users : List User) (st : SvcState),
      (processMessage env m msgs users st).2 ≠ none →
        (processMessage env m msgs users st).1.processedMessageIds.contains m.id = true) := by
  constructor
  · intro env m msgs users st h
    unfold processMessage
    split
    · rfl
    · simp [h]
  · intro env m msgs users st h
    unfold processMessage at h ⊢
    split at h
    · simp at h
    split at h
    · simp at h
    split at h
    · rename_i h1 h2 h3
      rw [if_neg h1, if_neg h2, if_pos h3]
      simp [List.contains_eq_any_beq]
    · simp at h

def envA : Env :=
  { agentUserId := ("llm1").toList,
    llm := fun _ => Except.error (("down").toList),
    fetchedConfig := none }

def msgA : Message :=
  { id := ("m1").toList, senderId := ("u7").toList, content := ("@Bot hi").toList,
    timestamp := 120, mentions := [("llm1").toList] }

def stA : SvcState :=
  { lastSeen := 100, processedMessageIds := [("m1").toList], agentConfig := none }

/-- Witness for C1: a concrete already-processed message is skipped
entirely even though it mentions the agent. -/
theorem processed_message_noop_witness :
    processMessage envA msgA [msgA] [] stA = (stA, none) :=
  processed_message_noop.1 envA msgA [msgA] [] stA (by decide)

/-- Claim C3: a message whose sender identifier equals the agent's own user
identifier is skipped before any mention handling — no publish, no state
change, no processed-set insertion — whatever its mentions list and content
say. -/
theorem self_message_muted (env : Env) (m : Message) (msgs : List Message)
    (users : List User) (st : SvcState) (h : m.senderId = env.agentUserId) :
    processMessage env m msgs users st = (st, none) := by
  unfold processMessage
  rw [if_pos h]

def msgSelf : Message :=
  { id := ("m2").toList, senderId := ("llm1").toList, content := ("@Bot look at this").toList,
    timestamp := 150, mentions := [("llm1").toList] }

def stEmpty : SvcState :=
  { lastSeen := 100, processedMessageIds := [], agentConfig := none }

/-- Witness for C3: a concrete self-sent message that both lists the agent in
its mentions and contains the at-name text is still skipped. -/
theorem self_message_muted_witness :
    processMessage envA msgSelf [msgSelf] [⟨("llm1").toList, ("Bot").toList⟩] stEmpty =
      (stEmpty, none) :=
  self_message_muted envA msgSelf [msgSelf] [⟨("llm1").toList, ("Bot").toList⟩] stEmpty (by decide)

/-- Claim C9: `strip_special_tags` extracts exactly the final-channel payload
from the multi-channel framing example, and strips the think block from the
think-block example. -/
theorem sanitize_examples :
    stripSpecialTags (("<|channel|>analysis<|message|>ignored<|end|><|start|>assistant<|channel|>final<|message|>Hello<|end|>").toList) = ("Hello").toList ∧
    stripSpecialTags (("<think>reasoning</think>Answer").toList) = ("Answer").toList := by
  decide

/-- Claim C2: one poll cycle never lowers the watermark, a cycle whose
fetch returned any messages sets it to the maximum of its old value and the
maximum fetched timestamp (dispatch outcomes do not matter, since processing
never touches the watermark), and over any sequence of poll cycles the
watermark after one more cycle is at least the watermark before it. -/
theorem watermark_monotone (env : Env) (f : Fetch) (st : SvcState) (fetches : List Fetch) :
    st.lastSeen ≤ (pollCycle env f st).1.lastSeen ∧
    (f.messages ≠ [] →
      (pollCycle env f st).1.lastSeen = max st.lastSeen (maxTs f.messages)) ∧
    (runCycles env fetches st).lastSeen ≤ (runCycles env (fetches ++ [f]) st).lastSeen := by
  refine ⟨pollCycle_lastSeen_mono env f st, ?_, ?_⟩
  · intro h
    rw [pollCycle_lastSeen, if_neg (by simpa [List.isEmpty_iff] using h)]
  · rw [runCycles_append]
    exact runCycles_lastSeen_mono env [f] (runCycles env fetches st)

def msg200 : Message :=
  { id := ("a").toList, senderId := ("u2").toList, content := ("x").toList,
    timestamp := 200, mentions := [] }

def msg100 : Message :=
  { id := ("b").toList, senderId := ("u3").toList, content := ("y").toList,
    timestamp := 100, mentions := [] }

def fetchB : Fetch := { messages := [msg200], users := [] }

/-- Witness for C2: a concrete non-empty fetch advances the watermark to the
maximum of the old watermark and the fetched timestamps. -/
theorem watermark_monotone_witness :
    (pollCycle envA fetchB stEmpty).1.lastSeen = max 100 (maxTs fetchB.messages) :=
  (watermark_monotone envA fetchB stEmpty []).2.1 (by decide)

/-- Claim C10: starting from the initial state (watermark = process start
time in milliseconds), after any sequence of poll cycles, every message a
cycle dispatches has a timestamp strictly greater than the start time: a
message timestamped at or before the agent's start is never dispatched. -/
theorem startup_cutoff (env : Env) (startMs : Nat) (fetches : List Fetch)
    (msgs : List Message) (m : Message)
    (h : m ∈ dispatched (runCycles env fetches (initState startMs)) msgs) :
    startMs < m.timestamp := by
  have h2 := (List.mem_filter.mp h).2
  have h3 : (runCycles env fetches (initState startMs)).lastSeen < m.timestamp := by
    have := (Bool.and_eq_true _ _ ▸ h2 : _ ∧ _)
    exact of_decide_eq_true this.1
  have h4 : startMs ≤ (runCycles env fetches (initState startMs)).lastSeen :=
    runCycles_lastSeen_mono env fetches (initState startMs)
  omega

def msgT10 : Message :=
  { id := ("t1").toList, senderId := ("u2").toList, content := ("hi").toList,
    timestamp := 10, mentions := [] }

/-- Witness for C10: a concrete message above the start watermark is
dispatched, and indeed postdates the start time. -/
theorem startup_cutoff_witness : 5 < msgT10.timestamp :=
  startup_cutoff envA 5 [] [msgT10] msgT10 (by decide)

def st50 : SvcState := { lastSeen := 50, processedMessageIds := [], agentConfig := none }

/-- Counterexample to C4: a fetch returning timestamps 200 then 100 with
watermark 50 dispatches in fetch order, 200 first — not in ascending
timestamp order, and not the 100-message first. -/
theorem dispatch_order_cex :
    (dispatched st50 [msg200, msg100]).map Message.timestamp = [200, 100] ∧
    (dispatched st50 [msg200, msg100]).map Message.timestamp ≠ [100, 200] := by
  decide

/-- Amended C4: within one poll cycle the eligible messages (timestamp above
the watermark, identifier unprocessed) are dispatched in the order the fetch
returned them — the dispatch list is the eligible sublist of the fetch — so
when the fetch is ascending by timestamp, dispatch is ascending too. -/
theorem dispatch_fetch_order (st : SvcState) (msgs : List Message)
    (h : List.Sorted (· ≤ ·) (msgs.map Message.timestamp)) :
    (dispatched st msgs).Sublist msgs ∧
    List.Sorted (· ≤ ·) ((dispatched st msgs).map Message.timestamp) :=
  ⟨List.filter_sublist msgs,
    List.Pairwise.sublist (List.Sublist.map Message.timestamp (List.filter_sublist msgs)) h⟩

/-- Witness for amended C4: the ascending fetch 100, 200 over watermark 50 is
dispatched as an ascending sublist. -/
theorem dispatch_fetch_order_witness :
    (dispatched st50 [msg100, msg200]).Sublist [msg100, msg200] ∧
    List.Sorted (· ≤ ·) ((dispatched st50 [msg100, msg200]).map Message.timestamp) :=
  dispatch_fetch_order st50 [msg100, msg200] (by simp [List.Sorted, msg100, msg200])

def userBot : User := { id := ("llm1").toList, name := ("Bot").toList }

def msgBotQ : Message :=
  { id := ("q1").toList, senderId := ("u9").toList,
    content := ("@Bob hey @Bot can you help").toList, timestamp := 300, mentions := [] }

def msgHello : Message :=
  { id := ("q2").toList, senderId := ("u9").toList,
    content := ("hello everyone").toList, timestamp := 301, mentions := [] }

/-- Claim C7: `is_mentioned` holds exactly when the mentions list carries the
agent's user id, or some user entry resolves that id to a non-empty display
name whose at-prefixed form occurs verbatim in the content; on the spec's
concrete example the at-name message is detected and the plain greeting is
not. -/
theorem is_mentioned_iff :
    (∀ (agentUid : Str) (m : Message) (users : List User),
      isMentioned agentUid m users = true ↔
        (agentUid ∈ m.mentions ∨
          ∃ u ∈ users, u.id = agentUid ∧ u.name ≠ [] ∧
            containsSub ('@' :: u.name) m.content = true)) ∧
    isMentioned (("llm1").toList) msgBotQ [userBot] = true ∧
    isMentioned (("llm1").toList) msgHello [userBot] = false := by
  refine ⟨?_, by decide, by decide⟩
  intro agentUid m users
  unfold isMentioned
  simp [List.any_eq_true, List.elem_iff, and_assoc]

/-- Claim C5: with more than ten fetched messages, the built context is the
last ten messages mapped to turns in original order — exactly ten turns,
eleven once `generate_reply` prepends the system turn — and with ten or
fewer, every message is used. -/
theorem context_window_bound (agentUid : Str) (msgs : List Message) (users : List User)
    (cur : Message) (cfg : Option AgentConfig) :
    (10 < msgs.length →
      buildContext agentUid msgs users cur =
        (msgs.drop (msgs.length - 10)).map (msgTurn agentUid users cur) ∧
      (buildContext agentUid msgs users cur).length = 10 ∧
      (llmMessages cfg (buildContext agentUid msgs users cur)).length = 11) ∧
    (msgs.length ≤ 10 →
      buildContext agentUid msgs users cur = msgs.map (msgTurn agentUid users cur)) := by
  constructor
  · intro h
    have hb : buildContext agentUid msgs users cur =
        (msgs.drop (msgs.length - 10)).map (msgTurn agentUid users cur) := by
      unfold buildContext
      rw [if_pos h]
    have hl : (buildContext agentUid msgs users cur).length = 10 := by
      rw [hb]
      simp only [List.length_map, List.length_drop]
      omega
    exact ⟨hb, hl, by simp [llmMessages, hl]⟩
  · intro h
    unfold buildContext
    rw [if_neg (by omega)]

def msgsEleven : List Message := List.replicate 11 msg100

/-- Witness for C5: a concrete eleven-message fetch builds exactly ten
turns. -/
theorem context_window_bound_witness :
    (buildContext (("llm1").toList) msgsEleven [] msg100).length = 10 :=
  ((context_window_bound (("llm1").toList) msgsEleven [] msg100 none).1 (by decide)).2.1

/-- Counterexample to C6: a mid-sentence at-mention, which is not part of any
leading mention run, is removed by the cleaning rather than left in the
content. -/
theorem leading_mention_cex :
    cleanContent (("hi @Bob bye").toList) = ("hi bye").toList ∧
    containsSub (("@Bob").toList) (cleanContent (("hi @Bob bye").toList)) = false := by
  decide

theorem stripAtMentionsAux_fuel :
    ∀ (f1 f2 : Nat) (cs : Str), cs.length ≤ f1 → cs.length ≤ f2 →
      stripAtMentionsAux f1 cs = stripAtMentionsAux f2 cs := by
  intro f1
  induction f1 with
  | zero =>
    intro f2 cs h1 _
    have hcs : cs = [] := List.eq_nil_of_length_eq_zero (Nat.le_zero.mp h1)
    subst hcs
    cases f2 <;> rfl
  | succ f ih =>
    intro f2 cs h1 h2
    cases cs with
    | nil => cases f2 <;> rfl
    | cons c rest =>
      cases f2 with
      | zero => simp at h2
      | succ f2p =>
        have hr : rest.length ≤ f := by simp at h1; omega
        have hr2 : rest.length ≤ f2p := by simp at h2; omega
        simp only [stripAtMentionsAux]
        by_cases hc : c = '@'
        · rw [if_pos hc, if_pos hc]
          by_cases he : (rest.takeWhile isMentionChar).isEmpty = true
          · rw [if_pos he, if_pos he, ih f2p rest hr hr2]
          · rw [if_neg he, if_neg he]
            have hlen : ((rest.dropWhile isMentionChar).dropWhile isPySpace).length ≤
                rest.length := by
              have a1 := (List.dropWhile_sublist (l := rest) isMentionChar).length_le
              have a2 := (List.dropWhile_sublist
                (l := rest.dropWhile isMentionChar) isPySpace).length_le
              omega
            exact ih f2p _ (le_trans hlen hr) (le_trans hlen hr2)
        · rw [if_neg hc, if_neg hc, ih f2p rest hr hr2]

theorem stripAtMentions_cons_ne (c : Char) (cs : Str) (hc : c ≠ '@') :
    stripAtMentions (c :: cs) = c :: stripAtMentions cs := by
  show stripAtMentionsAux (cs.length + 1) (c :: cs) = c :: stripAtMentionsAux cs.length cs
  simp only [stripAtMentionsAux]
  rw [if_neg hc]

theorem stripAtMentions_append_of_no_at (pre t : Str) (h : '@' ∉ pre) :
    stripAtMentions (pre ++ t) = pre ++ stripAtMentions t := by
  induction pre with
  | nil => rfl
  | cons c pre ih =>
    have hc : c ≠ '@' := fun e => h (e ▸ List.mem_cons_self c pre)
    rw [List.cons_append, stripAtMentions_cons_ne c _ hc,
      ih (fun hm => h (List.mem_cons_of_mem c hm)), List.cons_append]

theorem takeWhile_append_all (p : Char → Bool) (y : Char) (ys : Str) (hy : p y = false) :
    ∀ (xs : Str), (∀ c ∈ xs, p c = true) → List.takeWhile p (xs ++ y :: ys) = xs := by
  intro xs
  induction xs with
  | nil => intro _; simp [List.takeWhile_cons, hy]
  | cons x xs ih =>
    intro hall
    have hx : p x = true := hall x (List.mem_cons_self x xs)
    simp only [List.cons_append, List.takeWhile_cons, hx, if_true]
    rw [ih (fun c hc => hall c (List.mem_cons_of_mem x hc))]

theorem dropWhile_append_all (p : Char → Bool) (y : Char) (ys : Str) (hy : p y = false) :
    ∀ (xs : Str), (∀ c ∈ xs, p c = true) → List.dropWhile p (xs ++ y :: ys) = y :: ys := by
  intro xs
  induction xs with
  | nil => intro _; simp [List.dropWhile_cons, hy]
  | cons x xs ih =>
    intro hall
    have hx : p x = true := hall x (List.mem_cons_self x xs)
    simp only [List.cons_append, List.dropWhile_cons, hx, if_true]
    exact ih (fun c hc => hall c (List.mem_cons_of_mem x hc))

theorem stripAtMentions_removes (name post : Str) (hname : name ≠ [])
    (hall : ∀ c ∈ name, isMentionChar c = true) :
    stripAtMentions ('@' :: (name ++ ' ' :: post)) =
      stripAtMentions (List.dropWhile isPySpace post) := by
  show stripAtMentionsAux ((name ++ ' ' :: post).length + 1) ('@' :: (name ++ ' ' :: post)) = _
  simp only [stripAtMentionsAux, if_true]
  rw [takeWhile_append_all isMentionChar ' ' post (by decide) name hall]
  rw [if_neg (by simpa [List.isEmpty_iff] using hname)]
  rw [dropWhile_append_all isMentionChar ' ' post (by decide) name hall]
  rw [show List.dropWhile isPySpace (' ' :: post) = List.dropWhile isPySpace post by
    simp [List.dropWhile_cons, isPySpace]]
  have hx := (List.dropWhile_sublist (l := post) isPySpace).length_le
  exact stripAtMentionsAux_fuel _ _ _ (by simp; omega) (Nat.le_refl _)

/-- Amended C6: the cleaning removes every at-mention token run together with
its trailing whitespace, wherever it occurs in the content — not only a
leading run: any occurrence of an at-sign followed by a non-empty mention
token and a space is deleted in place. -/
theorem strip_at_mentions_anywhere (pre name post : Str) (hpre : '@' ∉ pre)
    (hname : name ≠ []) (hall : ∀ c ∈ name, isMentionChar c = true) :
    stripAtMentions (pre ++ '@' :: (name ++ ' ' :: post)) =
      pre ++ stripAtMentions (List.dropWhile isPySpace post) := by
  rw [stripAtMentions_append_of_no_at pre _ hpre,
    stripAtMentions_removes name post hname hall]

/-- Witness for amended C6: the concrete mid-sentence mention of the
counterexample input is deleted in place. -/
theorem strip_at_mentions_anywhere_witness :
    stripAtMentions ((("hi ").toList) ++ '@' :: ((("Bob").toList) ++ ' ' :: (("bye").toList))) =
      (("hi ").toList) ++ stripAtMentions (List.dropWhile isPySpace (("bye").toList)) :=
  strip_at_mentions_anywhere (("hi ").toList) (("Bob").toList) (("bye").toList)
    (by decide) (by decide) (by decide)

def llmBoom : List Turn → Except Str Str := fun _ => Except.error (("boom").toList)

/-- Counterexample to C8: the fallback reply produced when the LLM client
raises is the fixed Chinese apology with the error appended; it is not the
English wording the claim states, which occurs nowhere in it. -/
theorem fallback_wording_cex :
    generateReply none llmBoom [] = ("抱歉，我遇到了一些问题：boom").toList ∧
    containsSub (("Sorry, I ran into a problem: boom").toList)
      (generateReply none llmBoom []) = false := by
  decide

theorem containsSub_append_self (pat : Str) :
    ∀ (pre : Str), containsSub pat (pre ++ pat) = true := by
  have hself : pat.isPrefixOf pat = true := List.isPrefixOf_iff_prefix.mpr List.prefix_rfl
  intro pre
  induction pre with
  | nil =>
    cases pat with
    | nil => decide
    | cons c r =>
      show (splitAtSub (c :: r) (c :: r)).isSome = true
      unfold splitAtSub
      rw [if_pos hself]
      rfl
  | cons c pre ih =>
    show (splitAtSub pat (c :: (pre ++ pat))).isSome = true
    unfold splitAtSub
    split
    · rfl
    · simpa [Option.isSome_map] using ih

/-- Amended C8: when the LLM client raises, `process_message` still
publishes a reply to the triggering message: the literal fallback embedding
the failure description after the fixed apology prefix (the Chinese wording
of line 308, not the English paraphrase) — a non-empty content containing
the literal error text — and the triggering message is still marked
processed. -/
theorem llm_failure_fallback (env : Env) (m : Message) (msgs : List Message)
    (users : List User) (st : SvcState) (e : Str)
    (hs : ¬ m.senderId = env.agentUserId)
    (hp : st.processedMessageIds.contains m.id = false)
    (hm : isMentioned env.agentUserId m users = true)
    (he : env.llm (llmMessages (cfgAfterRefresh env st)
            (buildContext env.agentUserId msgs users m)) = Except.error e) :
    (processMessage env m msgs users st).2 =
      some { content := fallbackReply e, replyToId := some m.id } ∧
    fallbackReply e ≠ [] ∧
    containsSub e (fallbackReply e) = true ∧
    (processMessage env m msgs users st).1.processedMessageIds.contains m.id = true := by
  have hpm : processMessage env m msgs users st =
      ({ st with agentConfig := cfgAfterRefresh env st,
                 processedMessageIds := m.id :: st.processedMessageIds },
        some { content := fallbackReply e, replyToId := some m.id }) := by
    unfold processMessage
    rw [if_neg hs, if_neg (by simpa using hp), if_pos hm]
    simp only [generateReply, he]
  refine ⟨by rw [hpm], ?_, ?_, by rw [hpm]; simp [List.contains_eq_any_beq]⟩
  · show ('抱' :: ((("歉，我遇到了一些问题：").toList) ++ e)) ≠ []
    exact List.cons_ne_nil _ _
  · exact containsSub_append_self e (("抱歉，我遇到了一些问题：").toList)

def envBoom : Env :=
  { agentUserId := ("llm1").toList, llm := llmBoom, fetchedConfig := none }

def msgTrig : Message :=
  { id := ("z1").toList, senderId := ("u5").toList, content := ("@Bot help").toList,
    timestamp := 400, mentions := [("llm1").toList] }

/-- Witness for amended C8: with a concrete always-failing LLM client, the
triggering mention is answered by the literal fallback reply. -/
theorem llm_failure_fallback_witness :
    (processMessage envBoom msgTrig [msgTrig] [userBot] stEmpty).2 =
      some { content := fallbackReply (("boom").toList), replyToId := some msgTrig.id } :=
  (llm_failure_fallback envBoom msgTrig [msgTrig] [userBot] stEmpty (("boom").toList)
    (by decide) (by decide) (by decide) (by rfl)).1

end GradientFlow
